import Mathlib

/-!
# Shallow embedding of the MealPlanner shopping-list core (src/app.py)

This file embeds the two pure computations of the MealPlanner app that the
claims are about:

* `_aggregate_shopping_list_from_planner` (app.py, lines 459-480): walks the
  planner week (days x meals Pranzo/Cena), scales each planned recipe's
  ingredient lines by `servings / max(1, baseServings)`, converts units to a
  base unit via the `to_base` table, accumulates quantities in an
  insertion-ordered dict keyed by `(title-cased trimmed name, base unit)`,
  converts large g/ml totals to kg/l for display with rounding to two
  decimals, and sorts rows by `(name, unit)`.

* `_ensure_week_checklist` (app.py, lines 482-499): reconciles the freshly
  computed list with a previously stored checklist, carrying over the
  purchased flag per `(name, unit)` key, and sorts purchased items last.

Quantities are modelled as exact rationals (Python floats in the source);
Python `round(x, 2)` is modelled as round-half-to-even at two decimals.
String casing (`str.title`, `str.lower`, `str.strip`) is modelled on the
ASCII letters and whitespace, which is what the source data uses; Python
string comparison is code-point lexicographic and is modelled accordingly.
Python `list.sort` is a stable sort; it is modelled by a stable insertion
sort.
-/

/-- One ingredient line of a recipe, a dict `{"name": ..., "qty": ..., "unit": ...}`.
`qty = none` models a missing `"qty"` key (`ing.get("qty", 0)` then yields 0). -/
structure Ingredient where
  name : String
  qty : Option ℚ
  unit : String
deriving Repr, DecidableEq

/-- A recipe as used by the aggregator: its id, base servings
(`rec.get("servings", 1)`; `none` models a missing key) and ingredient lines. -/
structure Recipe where
  id : Int
  servings : Option Int
  ingredients : List Ingredient
deriving Repr, DecidableEq

/-- One planner slot: `{"recipe_id": ..., "servings": ...}`.
`recipe_id = none` models an unplanned slot; `servings = none` a missing key
(`slot.get("servings", 0)` then yields 0). -/
structure Slot where
  recipe_id : Option Int
  servings : Option Int
deriving Repr, DecidableEq

/-- One planner day: the two meal slots, in the order of
`MEALS = ["Pranzo", "Cena"]`. -/
structure Day where
  pranzo : Slot
  cena : Slot
deriving Repr, DecidableEq

/-- The planner of one week: `planner["days"]`. -/
structure Planner where
  days : List Day
deriving Repr, DecidableEq

/-- `_find_recipe(rid)` (app.py 377-383): `None` for a `None` id, otherwise the
first recipe of the catalog whose `id` matches. -/
def find_recipe (recipes : List Recipe) (rid : Option Int) : Option Recipe :=
  match rid with
  | none => none
  | some i => recipes.find? (fun r => decide (r.id = i))

/-- Python `str.lower()` (ASCII letters). -/
def pyLower (s : String) : String :=
  ⟨s.data.map Char.toLower⟩

/-- Python `str.strip()`: remove leading and trailing whitespace. -/
def pyStrip (s : String) : String :=
  ⟨((s.data.dropWhile Char.isWhitespace).reverse.dropWhile Char.isWhitespace).reverse⟩

/-- Python `str.title()` on a character list (ASCII letters): a letter is
uppercased when the previous character is not a letter, lowercased otherwise. -/
def titleAux : Bool → List Char → List Char
  | _, [] => []
  | prevAlpha, c :: cs =>
    (if prevAlpha then c.toLower else c.toUpper) :: titleAux c.isAlpha cs

/-- Python `str.title()` (ASCII letters). -/
def pyTitle (s : String) : String :=
  ⟨titleAux false s.data⟩

/-- `str(ing.get("name","")).strip().title()` (app.py 469): the normalized
ingredient name used as first component of the aggregation key. -/
def normName (s : String) : String :=
  pyTitle (pyStrip s)

/-- Python string `<`: lexicographic comparison of the code points. -/
def charsLt : List Char → List Char → Bool
  | [], [] => false
  | [], _ :: _ => true
  | _ :: _, [] => false
  | a :: as, b :: bs => if a < b then true else if b < a then false else charsLt as bs

/-- Python string `<` on `String`. -/
def pyStrLt (a b : String) : Bool :=
  charsLt a.data b.data

/-- Python string `<=` on `String` (equal or less). -/
def pyStrLe (a b : String) : Bool :=
  decide (a = b) || pyStrLt a b

/-- Stable insertion of `a` into `l`: `a` is placed before the first element
`b` with `le a b`; on ties the inserted (originally earlier) element comes
first, as in Python `list.sort`. -/
def insertLE (le : α → α → Bool) (a : α) : List α → List α
  | [] => [a]
  | b :: bs => if le a b then a :: b :: bs else b :: insertLE le a bs

/-- Stable insertion sort, modelling Python `list.sort(key=...)`. -/
def isort (le : α → α → Bool) : List α → List α
  | [] => []
  | a :: as => insertLE le a (isort le as)

/-- The `to_base` table (app.py 460) with its pass-through default
`to_base.get(unit, (unit, 1))` (app.py 472): maps a (lowercased) unit to its
base unit and conversion factor. -/
def to_base (u : String) : String × ℚ :=
  if u = "g" then ("g", 1)
  else if u = "kg" then ("g", 1000)
  else if u = "ml" then ("ml", 1)
  else if u = "l" then ("ml", 1000)
  else if u = "pcs" then ("pcs", 1)
  else if u = "tbsp" then ("tbsp", 1)
  else if u = "tsp" then ("tsp", 1)
  else (u, 1)

/-- The aggregation key of one ingredient line: the normalized name paired
with the base unit of the lowercased unit string (app.py 469-473). -/
def ingKey (name unit : String) : String × String :=
  (normName name, (to_base (pyLower unit)).1)

/-- `scale = (serv or 0) / max(1, rec.get("servings", 1))` (app.py 464, 467). -/
def slotScale (rec : Recipe) (slot : Slot) : ℚ :=
  (slot.servings.getD 0 : ℚ) / ((max 1 (rec.servings.getD 1) : Int) : ℚ)

/-- The `(key, base quantity)` contributions of one slot, in the iteration
order of the source (app.py 464-473): nothing when the recipe is not found,
otherwise one entry per ingredient line whose trimmed title-cased name is
nonempty, with quantity `qty * scale * factor`. -/
def slotContribs (recipes : List Recipe) (slot : Slot) : List ((String × String) × ℚ) :=
  match find_recipe recipes slot.recipe_id with
  | none => []
  | some rec =>
    rec.ingredients.filterMap (fun ing =>
      if normName ing.name = "" then none
      else
        some (ingKey ing.name ing.unit,
              ing.qty.getD 0 * slotScale rec slot * (to_base (pyLower ing.unit)).2))

/-- All contributions of the week, iterating days then meals
(`for d in ...days: for meal in MEALS:`, app.py 462-463). -/
def contribs (planner : Planner) (recipes : List Recipe) : List ((String × String) × ℚ) :=
  planner.days.flatMap (fun d => slotContribs recipes d.pranzo ++ slotContribs recipes d.cena)

/-- `agg[(name, base_u)] = agg.get((name, base_u), 0) + qty_b` (app.py 473) on
an insertion-ordered association list: add to the first entry with this key,
keeping its position, or append a fresh entry at the end. -/
def dictAdd (agg : List ((String × String) × ℚ)) (k : String × String) (v : ℚ) :
    List ((String × String) × ℚ) :=
  match agg with
  | [] => [(k, v)]
  | e :: rest => if e.1 = k then (e.1, e.2 + v) :: rest else e :: dictAdd rest k v

/-- The accumulated dict `agg` after all contributions (app.py 461-473). -/
def aggMap (planner : Planner) (recipes : List Recipe) : List ((String × String) × ℚ) :=
  (contribs planner recipes).foldl (fun a kv => dictAdd a kv.1 kv.2) []

/-- Value of a key in the accumulated dict (0 when absent), reading the first
matching entry. -/
def lookupQ (agg : List ((String × String) × ℚ)) (k : String × String) : ℚ :=
  match agg.find? (fun e => decide (e.1 = k)) with
  | some e => e.2
  | none => 0

/-- Round to the nearest integer, ties to even: Python builtin `round`. -/
def roundHalfEven (q : ℚ) : ℤ :=
  if q - ⌊q⌋ = 1 / 2 then (if 2 ∣ ⌊q⌋ then ⌊q⌋ else ⌊q⌋ + 1) else round q

/-- Python `round(x, 2)`. -/
def round2 (q : ℚ) : ℚ :=
  (roundHalfEven (q * 100) : ℚ) / 100

/-- One row of the shopping-list table:
`{"Ingrediente": ..., "Quantità": ..., "Unità": ...}`. -/
structure Row where
  ingrediente : String
  quantita : ℚ
  unita : String
deriving Repr, DecidableEq

/-- Display conversion of one accumulated entry (app.py 476-478): grams and
millilitres at or above 1000 become kg and l, everything else passes through;
the quantity is rounded to two decimals here. -/
def displayRow (k : String × String) (qtyb : ℚ) : Row :=
  if k.2 = "g" ∧ qtyb ≥ 1000 then ⟨k.1, round2 (qtyb / 1000), "kg"⟩
  else if k.2 = "ml" ∧ qtyb ≥ 1000 then ⟨k.1, round2 (qtyb / 1000), "l"⟩
  else ⟨k.1, round2 qtyb, k.2⟩

/-- Python comparison of a `(name, unit)` string pair: lexicographic with
Python string comparison. -/
def pairLE (a b : String × String) : Bool :=
  pyStrLt a.1 b.1 || (decide (a.1 = b.1) && pyStrLe a.2 b.2)

/-- The sort key comparison of app.py 479: lexicographic on
`(Ingrediente, Unità)` with Python string comparison. -/
def rowLE (a b : Row) : Bool :=
  pairLE (a.ingrediente, a.unita) (b.ingrediente, b.unita)

/-- `_aggregate_shopping_list_from_planner` (app.py 459-480): accumulate,
convert each entry for display, sort by `(name, unit)`. -/
def aggregate_shopping_list (planner : Planner) (recipes : List Recipe) : List Row :=
  isort rowLE ((aggMap planner recipes).map (fun kv => displayRow kv.1 kv.2))

/-- One stored checklist row: a shopping-list row plus the `"Comprato"`
(purchased) flag. -/
structure CheckRow where
  ingrediente : String
  quantita : ℚ
  unita : String
  comprato : Bool
deriving Repr, DecidableEq

/-- The `prev` dict lookup of app.py 493-494: the comprehension
`{(r["Ingrediente"], r["Unità"]): r.get("Comprato", False) for r in cur}` keeps
the last entry per key, and `.get(key, False)` defaults to `False`. -/
def prevGet (cur : List CheckRow) (name unit : String) : Bool :=
  match cur.reverse.find? (fun r => decide (r.ingrediente = name ∧ r.unita = unit)) with
  | some r => r.comprato
  | none => false

/-- The sort key comparison of app.py 498: lexicographic on
`(Comprato, Ingrediente, Unità)` with `False < True`, i.e. purchased items
sink to the bottom. -/
def checkLE (a b : CheckRow) : Bool :=
  (!a.comprato && b.comprato) ||
    ((a.comprato == b.comprato) && pairLE (a.ingrediente, a.unita) (b.ingrediente, b.unita))

/-- Attach a purchased flag to a freshly computed row. -/
def withFlag (r : Row) (b : Bool) : CheckRow :=
  ⟨r.ingrediente, r.quantita, r.unita, b⟩

/-- `_ensure_week_checklist` (app.py 482-499) as a pure function of the week's
planner, the catalog, and the previously stored checklist (`none` models an
absent key). An empty fresh list is stored as `[]` and returned before any
reconciliation; otherwise the fresh rows get their flags (all `False` when the
previous checklist is absent or empty, the looked-up previous flag otherwise)
and the result is sorted with purchased items last. -/
def ensure_week_checklist (planner : Planner) (recipes : List Recipe)
    (cur : Option (List CheckRow)) : List CheckRow :=
  if aggregate_shopping_list planner recipes = [] then []
  else
    isort checkLE
      (match cur with
       | none => (aggregate_shopping_list planner recipes).map (fun r => withFlag r false)
       | some [] => (aggregate_shopping_list planner recipes).map (fun r => withFlag r false)
       | some cs =>
        (aggregate_shopping_list planner recipes).map
          (fun r => withFlag r (prevGet cs r.ingrediente r.unita)))

/-! ### Concrete test data used by the claim theorems and witnesses -/

/-- A demo recipe: 2 base servings, 200 g of pasta and 10 ml of oil. -/
def pastaRec : Recipe := ⟨1, some 2, [⟨"Pasta", some 200, "g"⟩, ⟨"Olio", some 10, "ml"⟩]⟩

/-- A week with `pastaRec` planned once at 4 servings (scale 2). -/
def pastaPlanner : Planner := ⟨[⟨⟨some 1, some 4⟩, ⟨none, none⟩⟩]⟩

/-- A slot requesting recipe 1 at 4 servings. -/
def scaleSlot : Slot := ⟨some 1, some 4⟩

/-- A single-ingredient recipe with 2 base servings and 200 g of pasta. -/
def scaleRec : Recipe := ⟨1, some 2, [⟨"Pasta", some 200, "g"⟩]⟩

/-- A recipe with five 250 g lines of the same ingredient name. -/
def farinaRec : Recipe :=
  ⟨1, some 2, [⟨"Farina", some 250, "g"⟩, ⟨"Farina", some 250, "g"⟩, ⟨"Farina", some 250, "g"⟩,
    ⟨"Farina", some 250, "g"⟩, ⟨"Farina", some 250, "g"⟩]⟩

/-- A week with `farinaRec` planned once at its base servings (scale 1). -/
def farinaPlanner : Planner := ⟨[⟨⟨some 1, some 2⟩, ⟨none, none⟩⟩]⟩

/-- A recipe whose two lines have the same name and units differing only in case. -/
def casedRec : Recipe := ⟨1, some 1, [⟨"Farina", some 100, "G"⟩, ⟨"Farina", some 200, "g"⟩]⟩

/-- A week with `casedRec` planned once at 1 serving (scale 1). -/
def casedPlanner : Planner := ⟨[⟨⟨some 1, some 1⟩, ⟨none, none⟩⟩]⟩

/-- A recipe contributing 1100 g of flour, past the 1000 g display threshold. -/
def sogliaRec : Recipe := ⟨1, some 1, [⟨"Farina", some 1100, "g"⟩]⟩

/-- A week with `sogliaRec` planned once at 1 serving (scale 1). -/
def sogliaPlanner : Planner := ⟨[⟨⟨some 1, some 1⟩, ⟨none, none⟩⟩]⟩

/-- A stored checklist from when the flour total was still below 1000 g:
the flour was ticked off under the key `("Farina", "g")`. -/
def sogliaPrev : List CheckRow := [⟨"Farina", 900, "g", true⟩]

/-- A recipe with 100 g of tomato and 5 g of basil. -/
def tomatoRec : Recipe := ⟨1, some 2, [⟨"Tomato", some 100, "g"⟩, ⟨"Basil", some 5, "g"⟩]⟩

/-- A week with `tomatoRec` planned once at its base servings (scale 1). -/
def tomatoPlanner : Planner := ⟨[⟨⟨some 1, some 2⟩, ⟨none, none⟩⟩]⟩

/-- A stored checklist: tomato already bought, garlic no longer planned. -/
def tomatoPrev : List CheckRow := [⟨"Tomato", 100, "g", true⟩, ⟨"Garlic", 3, "g", false⟩]

/-! ## Order properties of the Python string comparison -/

theorem charsLt_cons {a b : Char} {as bs : List Char} :
    charsLt (a :: as) (b :: bs) = true ↔ a < b ∨ (a = b ∧ charsLt as bs = true) := by
  rcases lt_trichotomy a b with h | h | h
  · simp [charsLt, h]
  · subst h; simp [charsLt]
  · simp [charsLt, asymm h, h.ne.symm, h]

theorem charsLt_trans : ∀ {as bs cs : List Char},
    charsLt as bs = true → charsLt bs cs = true → charsLt as cs = true
  | [], [], _ :: _, h, _ => by simp [charsLt] at h
  | [], _ :: _, _ :: _, _, _ => by simp [charsLt]
  | _ :: _, _ :: _, [], _, h => by simp [charsLt] at h
  | a :: as, b :: bs, c :: cs, h1, h2 => by
    rcases charsLt_cons.mp h1 with hab | ⟨rfl, hab⟩
    · rcases charsLt_cons.mp h2 with hbc | ⟨rfl, hbc⟩
      · exact charsLt_cons.mpr (Or.inl (hab.trans hbc))
      · exact charsLt_cons.mpr (Or.inl hab)
    · rcases charsLt_cons.mp h2 with hbc | ⟨rfl, hbc⟩
      · exact charsLt_cons.mpr (Or.inl hbc)
      · exact charsLt_cons.mpr (Or.inr ⟨rfl, charsLt_trans hab hbc⟩)

theorem charsLt_trichotomy : ∀ (as bs : List Char),
    charsLt as bs = true ∨ as = bs ∨ charsLt bs as = true
  | [], [] => Or.inr (Or.inl rfl)
  | [], _ :: _ => Or.inl (by simp [charsLt])
  | _ :: _, [] => Or.inr (Or.inr (by simp [charsLt]))
  | a :: as, b :: bs => by
    rcases lt_trichotomy a b with hab | hab | hab
    · exact Or.inl (charsLt_cons.mpr (Or.inl hab))
    · subst hab
      rcases charsLt_trichotomy as bs with h | h | h
      · exact Or.inl (charsLt_cons.mpr (Or.inr ⟨rfl, h⟩))
      · exact Or.inr (Or.inl (by rw [h]))
      · exact Or.inr (Or.inr (charsLt_cons.mpr (Or.inr ⟨rfl, h⟩)))
    · exact Or.inr (Or.inr (charsLt_cons.mpr (Or.inl hab)))

theorem charsLt_asymm : ∀ {as bs : List Char},
    charsLt as bs = true → charsLt bs as = false
  | [], [], h => by simp [charsLt] at h
  | [], _ :: _, _ => by simp [charsLt]
  | _ :: _, [], h => by simp [charsLt] at h
  | a :: as, b :: bs, h => by
    rcases charsLt_cons.mp h with hab | ⟨rfl, hab⟩
    · rcases Bool.eq_false_or_eq_true (charsLt (b :: bs) (a :: as)) with ht | hf
      · rcases charsLt_cons.mp ht with hba | ⟨heq, _⟩
        · exact absurd hba (asymm hab)
        · exact absurd heq.symm hab.ne
      · exact hf
    · rcases Bool.eq_false_or_eq_true (charsLt (a :: bs) (a :: as)) with ht | hf
      · rcases charsLt_cons.mp ht with hba | ⟨_, hba⟩
        · exact absurd hba (lt_irrefl a)
        · exact absurd hba (by simp [charsLt_asymm hab])
      · exact hf

theorem string_eq_of_data {a b : String} (h : a.data = b.data) : a = b := by
  cases a; cases b; exact congrArg String.mk h

theorem pyStrLt_trans {a b c : String} (h1 : pyStrLt a b = true) (h2 : pyStrLt b c = true) :
    pyStrLt a c = true := charsLt_trans h1 h2

theorem pyStrLt_trichotomy (a b : String) :
    pyStrLt a b = true ∨ a = b ∨ pyStrLt b a = true := by
  rcases charsLt_trichotomy a.data b.data with h | h | h
  · exact Or.inl h
  · exact Or.inr (Or.inl (string_eq_of_data h))
  · exact Or.inr (Or.inr h)

theorem pyStrLt_asymm {a b : String} (h : pyStrLt a b = true) : pyStrLt b a = false :=
  charsLt_asymm h

theorem pyStrLt_irrefl (a : String) : pyStrLt a a = false := by
  rcases Bool.eq_false_or_eq_true (pyStrLt a a) with h | h
  · exact absurd (pyStrLt_asymm h) (by simp [h])
  · exact h

theorem pyStrLe_refl (a : String) : pyStrLe a a = true := by
  simp [pyStrLe]

theorem pyStrLe_trans {a b c : String} (h1 : pyStrLe a b = true) (h2 : pyStrLe b c = true) :
    pyStrLe a c = true := by
  simp only [pyStrLe, Bool.or_eq_true, decide_eq_true_eq] at h1 h2 ⊢
  rcases h1 with rfl | h1
  · exact h2
  · rcases h2 with rfl | h2
    · exact Or.inr h1
    · exact Or.inr (pyStrLt_trans h1 h2)

theorem pyStrLe_total (a b : String) : pyStrLe a b = true ∨ pyStrLe b a = true := by
  simp only [pyStrLe, Bool.or_eq_true, decide_eq_true_eq]
  rcases pyStrLt_trichotomy a b with h | h | h
  · exact Or.inl (Or.inr h)
  · exact Or.inl (Or.inl h)
  · exact Or.inr (Or.inr h)

theorem pyStrLe_antisymm {a b : String} (h1 : pyStrLe a b = true) (h2 : pyStrLe b a = true) :
    a = b := by
  simp only [pyStrLe, Bool.or_eq_true, decide_eq_true_eq] at h1 h2
  rcases h1 with rfl | h1
  · rfl
  · rcases h2 with rfl | h2
    · rfl
    · exact absurd h2 (by simp [pyStrLt_asymm h1])

/-! ## The stable insertion sort -/

theorem insertLE_perm (le : α → α → Bool) (a : α) (l : List α) :
    (insertLE le a l).Perm (a :: l) := by
  induction l with
  | nil => simp [insertLE]
  | cons b bs ih =>
    simp only [insertLE]
    split
    · exact List.Perm.refl _
    · exact (ih.cons b).trans (List.Perm.swap a b bs)

theorem isort_perm (le : α → α → Bool) (l : List α) : (isort le l).Perm l := by
  induction l with
  | nil => simp [isort]
  | cons a as ih => exact (insertLE_perm le a (isort le as)).trans (ih.cons a)

theorem mem_insertLE {le : α → α → Bool} {a b : α} {l : List α} :
    b ∈ insertLE le a l ↔ b = a ∨ b ∈ l := by
  rw [(insertLE_perm le a l).mem_iff]
  simp

theorem pairwise_insertLE {le : α → α → Bool}
    (trans : ∀ x y z, le x y = true → le y z = true → le x z = true)
    (total : ∀ x y, le x y = true ∨ le y x = true)
    {a : α} {l : List α} (h : l.Pairwise (fun x y => le x y = true)) :
    (insertLE le a l).Pairwise (fun x y => le x y = true) := by
  induction l with
  | nil => simp [insertLE]
  | cons b bs ih =>
    rcases List.pairwise_cons.mp h with ⟨hb, hbs⟩
    simp only [insertLE]
    split
    · rename_i hab
      refine List.pairwise_cons.mpr ⟨?_, h⟩
      intro x hx
      rcases List.mem_cons.mp hx with rfl | hx
      · exact hab
      · exact trans a b x hab (hb x hx)
    · rename_i hab
      have hba : le b a = true := by
        rcases total a b with h1 | h1
        · exact absurd h1 hab
        · exact h1
      refine List.pairwise_cons.mpr ⟨?_, ih hbs⟩
      intro x hx
      rcases mem_insertLE.mp hx with rfl | hx
      · exact hba
      · exact hb x hx

theorem pairwise_isort {le : α → α → Bool}
    (trans : ∀ x y z, le x y = true → le y z = true → le x z = true)
    (total : ∀ x y, le x y = true ∨ le y x = true)
    (l : List α) : (isort le l).Pairwise (fun x y => le x y = true) := by
  induction l with
  | nil => simp [isort]
  | cons a as ih => exact pairwise_insertLE trans total ih

theorem isort_of_pairwise {le : α → α → Bool} {l : List α}
    (h : l.Pairwise (fun x y => le x y = true)) : isort le l = l := by
  induction l with
  | nil => rfl
  | cons a as ih =>
    rcases List.pairwise_cons.mp h with ⟨ha, has⟩
    simp only [isort, ih has]
    cases as with
    | nil => rfl
    | cons b bs =>
      simp only [insertLE, ha b (List.mem_cons_self b bs), if_true]

/-! ## The sort key comparisons -/

theorem pairLE_trans {a b c : String × String}
    (h1 : pairLE a b = true) (h2 : pairLE b c = true) : pairLE a c = true := by
  simp only [pairLE, Bool.or_eq_true, Bool.and_eq_true, decide_eq_true_eq] at h1 h2 ⊢
  rcases h1 with h1 | ⟨e1, l1⟩
  · rcases h2 with h2 | ⟨e2, l2⟩
    · exact Or.inl (pyStrLt_trans h1 h2)
    · exact Or.inl (e2 ▸ h1)
  · rcases h2 with h2 | ⟨e2, l2⟩
    · exact Or.inl (e1 ▸ h2)
    · exact Or.inr ⟨e1.trans e2, pyStrLe_trans l1 l2⟩

theorem pairLE_total (a b : String × String) : pairLE a b = true ∨ pairLE b a = true := by
  simp only [pairLE, Bool.or_eq_true, Bool.and_eq_true, decide_eq_true_eq]
  rcases pyStrLt_trichotomy a.1 b.1 with h | h | h
  · exact Or.inl (Or.inl h)
  · rcases pyStrLe_total a.2 b.2 with h2 | h2
    · exact Or.inl (Or.inr ⟨h, h2⟩)
    · exact Or.inr (Or.inr ⟨h.symm, h2⟩)
  · exact Or.inr (Or.inl h)

theorem rowLE_trans {a b c : Row} (h1 : rowLE a b = true) (h2 : rowLE b c = true) :
    rowLE a c = true := pairLE_trans h1 h2

theorem rowLE_total (a b : Row) : rowLE a b = true ∨ rowLE b a = true :=
  pairLE_total _ _

theorem checkLE_trans {a b c : CheckRow} (h1 : checkLE a b = true) (h2 : checkLE b c = true) :
    checkLE a c = true := by
  cases ha : a.comprato <;> cases hb : b.comprato <;> cases hc : c.comprato <;>
    simp_all [checkLE] <;> exact pairLE_trans h1 h2

theorem checkLE_total (a b : CheckRow) : checkLE a b = true ∨ checkLE b a = true := by
  cases ha : a.comprato <;> cases hb : b.comprato <;> simp_all [checkLE]
  · exact pairLE_total _ _
  · exact pairLE_total _ _

theorem mem_keys_dictAdd {agg : List ((String × String) × ℚ)} {k k1 : String × String} {v : ℚ} :
    k1 ∈ (dictAdd agg k v).map Prod.fst ↔ k1 ∈ agg.map Prod.fst ∨ k1 = k := by
  induction agg with
  | nil => simp [dictAdd]
  | cons e rest ih =>
    by_cases h : e.1 = k
    · subst h
      simp [dictAdd]
      tauto
    · simp only [dictAdd, if_neg h, List.map_cons, List.mem_cons, ih]
      tauto

theorem nodup_keys_dictAdd {agg : List ((String × String) × ℚ)} {k : String × String} {v : ℚ}
    (h : (agg.map Prod.fst).Nodup) : ((dictAdd agg k v).map Prod.fst).Nodup := by
  induction agg with
  | nil => simp [dictAdd]
  | cons e rest ih =>
    simp only [List.map_cons, List.nodup_cons] at h
    by_cases he : e.1 = k
    · subst he
      simpa [dictAdd] using h
    · simp only [dictAdd, if_neg he, List.map_cons, List.nodup_cons]
      refine ⟨?_, ih h.2⟩
      intro hmem
      rcases mem_keys_dictAdd.mp hmem with hm | hm
      · exact h.1 hm
      · exact he hm

theorem lookupQ_nil (k1 : String × String) : lookupQ [] k1 = 0 := rfl

theorem lookupQ_cons (e : (String × String) × ℚ) (rest : List ((String × String) × ℚ))
    (k1 : String × String) :
    lookupQ (e :: rest) k1 = if e.1 = k1 then e.2 else lookupQ rest k1 := by
  by_cases h : e.1 = k1 <;> simp [lookupQ, List.find?, h]

theorem lookupQ_dictAdd (agg : List ((String × String) × ℚ)) (k k1 : String × String) (v : ℚ) :
    lookupQ (dictAdd agg k v) k1 = lookupQ agg k1 + (if k1 = k then v else 0) := by
  induction agg with
  | nil =>
    by_cases h : k1 = k
    · subst h; simp [dictAdd, lookupQ_cons, lookupQ_nil]
    · simp [dictAdd, lookupQ_cons, lookupQ_nil, h, Ne.symm h]
  | cons e rest ih =>
    by_cases he : e.1 = k
    · subst he
      by_cases h1 : k1 = e.1
      · subst h1
        simp [dictAdd, lookupQ_cons]
      · simp [dictAdd, lookupQ_cons, Ne.symm h1, h1]
    · by_cases h1 : k1 = e.1
      · subst h1
        simp [dictAdd, he, lookupQ_cons, Ne.symm he]
      · simp [dictAdd, he, lookupQ_cons, Ne.symm h1, h1, ih]

/-! ## The accumulation dict and the display conversion -/

theorem lookupQ_foldl (cs : List ((String × String) × ℚ))
    (init : List ((String × String) × ℚ)) (k : String × String) :
    lookupQ (cs.foldl (fun a kv => dictAdd a kv.1 kv.2) init) k
      = lookupQ init k + ((cs.filter (fun e => decide (e.1 = k))).map Prod.snd).sum := by
  induction cs generalizing init with
  | nil => simp
  | cons e rest ih =>
    simp only [List.foldl_cons, ih, lookupQ_dictAdd, List.filter_cons]
    by_cases h : e.1 = k
    · simp [h]
      ring
    · simp [h, Ne.symm h]

theorem mem_keys_foldl (cs : List ((String × String) × ℚ))
    (init : List ((String × String) × ℚ)) (k : String × String) :
    k ∈ ((cs.foldl (fun a kv => dictAdd a kv.1 kv.2) init).map Prod.fst)
      ↔ k ∈ init.map Prod.fst ∨ k ∈ cs.map Prod.fst := by
  induction cs generalizing init with
  | nil => simp
  | cons e rest ih =>
    simp only [List.foldl_cons, ih, mem_keys_dictAdd, List.map_cons, List.mem_cons]
    tauto

theorem nodup_keys_foldl (cs : List ((String × String) × ℚ))
    (init : List ((String × String) × ℚ)) (h : (init.map Prod.fst).Nodup) :
    (((cs.foldl (fun a kv => dictAdd a kv.1 kv.2) init)).map Prod.fst).Nodup := by
  induction cs generalizing init with
  | nil => exact h
  | cons e rest ih => exact ih _ (nodup_keys_dictAdd h)

theorem lookupQ_eq_of_mem {agg : List ((String × String) × ℚ)} {k : String × String} {v : ℚ}
    (h : (agg.map Prod.fst).Nodup) (hm : (k, v) ∈ agg) : lookupQ agg k = v := by
  induction agg with
  | nil => simp at hm
  | cons e rest ih =>
    simp only [List.map_cons, List.nodup_cons] at h
    rcases List.mem_cons.mp hm with rfl | hm
    · simp [lookupQ_cons]
    · have hk : k ∈ rest.map Prod.fst := List.mem_map.mpr ⟨(k, v), hm, rfl⟩
      have hne : e.1 ≠ k := fun he => h.1 (he ▸ hk)
      rw [lookupQ_cons, if_neg hne]
      exact ih h.2 hm

theorem aggMap_keys_nodup (p : Planner) (rs : List Recipe) :
    ((aggMap p rs).map Prod.fst).Nodup :=
  nodup_keys_foldl _ _ (by simp)

theorem mem_keys_aggMap (p : Planner) (rs : List Recipe) (k : String × String) :
    k ∈ (aggMap p rs).map Prod.fst ↔ k ∈ (contribs p rs).map Prod.fst := by
  rw [aggMap, mem_keys_foldl]
  simp

theorem aggMap_value {p : Planner} {rs : List Recipe} {k : String × String} {v : ℚ}
    (hm : (k, v) ∈ aggMap p rs) :
    v = (((contribs p rs).filter (fun e => decide (e.1 = k))).map Prod.snd).sum := by
  have h1 : lookupQ (aggMap p rs) k = v := lookupQ_eq_of_mem (aggMap_keys_nodup p rs) hm
  have h2 := lookupQ_foldl (contribs p rs) [] k
  rw [aggMap] at h1
  rw [h1] at h2
  rw [h2]
  simp [lookupQ_nil]

theorem to_base_fst_ne (u : String) : (to_base u).1 ≠ "kg" ∧ (to_base u).1 ≠ "l" := by
  rw [to_base]
  split
  · constructor <;> decide
  · split
    · constructor <;> decide
    · split
      · constructor <;> decide
      · split
        · constructor <;> decide
        · split
          · constructor <;> decide
          · split
            · constructor <;> decide
            · split
              · constructor <;> decide
              · rename_i h1 h2 h3 h4 h5 h6 h7
                exact ⟨h2, h4⟩

theorem mem_slotContribs_props {rs : List Recipe} {slot : Slot}
    {e : (String × String) × ℚ} (h : e ∈ slotContribs rs slot) :
    e.1.1 ≠ "" ∧ e.1.2 ≠ "kg" ∧ e.1.2 ≠ "l" := by
  rw [slotContribs] at h
  rcases hf : find_recipe rs slot.recipe_id with _ | rec
  · rw [hf] at h; simp at h
  · rw [hf] at h
    rcases List.mem_filterMap.mp h with ⟨ing, _, hing⟩
    by_cases hn : normName ing.name = ""
    · simp [hn] at hing
    · simp only [hn, if_false, Option.some.injEq] at hing
      subst hing
      exact ⟨hn, to_base_fst_ne _⟩

theorem mem_contribs_props {p : Planner} {rs : List Recipe}
    {e : (String × String) × ℚ} (h : e ∈ contribs p rs) :
    e.1.1 ≠ "" ∧ e.1.2 ≠ "kg" ∧ e.1.2 ≠ "l" := by
  rw [contribs] at h
  rcases List.mem_flatMap.mp h with ⟨d, _, hd⟩
  rcases List.mem_append.mp hd with h1 | h1
  · exact mem_slotContribs_props h1
  · exact mem_slotContribs_props h1

theorem displayRow_ingrediente (k : String × String) (q : ℚ) :
    (displayRow k q).ingrediente = k.1 := by
  rw [displayRow]
  split
  · rfl
  · split <;> rfl

theorem displayRow_unita (k : String × String) (q : ℚ) :
    (displayRow k q).unita =
      if k.2 = "g" ∧ q ≥ 1000 then "kg" else if k.2 = "ml" ∧ q ≥ 1000 then "l" else k.2 := by
  rw [displayRow]
  split
  · simp_all
  · split <;> simp_all

theorem displayRow_ne_of_ne {k k1 : String × String} {q q1 : ℚ}
    (hb : k.2 ≠ "kg" ∧ k.2 ≠ "l") (hb1 : k1.2 ≠ "kg" ∧ k1.2 ≠ "l")
    (hne : k.2 ≠ k1.2) : displayRow k q ≠ displayRow k1 q1 := by
  intro h
  have hu : (displayRow k q).unita = (displayRow k1 q1).unita := by rw [h]
  rw [displayRow_unita, displayRow_unita] at hu
  by_cases h1 : k.2 = "g" ∧ q ≥ 1000 <;> by_cases h2 : k1.2 = "g" ∧ q1 ≥ 1000 <;>
    by_cases h3 : k.2 = "ml" ∧ q ≥ 1000 <;> by_cases h4 : k1.2 = "ml" ∧ q1 ≥ 1000 <;>
    simp_all

/-! ## Case congruence of the name normalization -/

theorem char_eq_of_toNat_eq {a b : Char} (h : a.toNat = b.toNat) : a = b := by
  apply Char.eq_of_val_eq
  apply UInt32.eq_of_toBitVec_eq
  apply BitVec.eq_of_toNat_eq
  exact h

theorem toNat_ofNat_valid {n : ℕ} (h : n.isValidChar) : (Char.ofNat n).toNat = n := by
  simp [Char.ofNat, h, Char.ofNatAux, Char.toNat, UInt32.toNat, UInt32.ofNatCore]

theorem char_toNat_lt (c : Char) : c.toNat < 1114112 := by
  rcases c.valid with h | h
  · exact h.trans (by norm_num)
  · exact h.2

theorem char_toLower_toNat (c : Char) :
    c.toLower.toNat = if 65 ≤ c.toNat ∧ c.toNat ≤ 90 then c.toNat + 32 else c.toNat := by
  rw [Char.toLower]
  by_cases h : c.toNat ≥ 65 ∧ c.toNat ≤ 90
  · have hv : (c.toNat + 32).isValidChar := Or.inl (by omega)
    rw [if_pos h, toNat_ofNat_valid hv, if_pos h]
  · rw [if_neg h, if_neg h]

theorem char_toUpper_toNat (c : Char) :
    c.toUpper.toNat = if 97 ≤ c.toNat ∧ c.toNat ≤ 122 then c.toNat - 32 else c.toNat := by
  rw [Char.toUpper]
  by_cases h : c.toNat ≥ 97 ∧ c.toNat ≤ 122
  · have hv : (c.toNat - 32).isValidChar := Or.inl (by omega)
    rw [if_pos h, toNat_ofNat_valid hv, if_pos h]
  · rw [if_neg h, if_neg h]

theorem char_isAlpha_toNat (c : Char) :
    c.isAlpha = decide ((65 ≤ c.toNat ∧ c.toNat ≤ 90) ∨ (97 ≤ c.toNat ∧ c.toNat ≤ 122)) := by
  have h65 : (65 : UInt32) ≤ c.val ↔ 65 ≤ c.toNat := by
    rw [UInt32.le_def, BitVec.le_def]; rfl
  have h90 : c.val ≤ (90 : UInt32) ↔ c.toNat ≤ 90 := by
    rw [UInt32.le_def, BitVec.le_def]; rfl
  have h97 : (97 : UInt32) ≤ c.val ↔ 97 ≤ c.toNat := by
    rw [UInt32.le_def, BitVec.le_def]; rfl
  have h122 : c.val ≤ (122 : UInt32) ↔ c.toNat ≤ 122 := by
    rw [UInt32.le_def, BitVec.le_def]; rfl
  rw [Char.isAlpha, Char.isUpper, Char.isLower]
  simp only [ge_iff_le, h65, h90, h97, h122]
  by_cases h1 : 65 ≤ c.toNat ∧ c.toNat ≤ 90 <;> by_cases h2 : 97 ≤ c.toNat ∧ c.toNat ≤ 122 <;>
    simp_all

theorem char_toUpper_congr {a b : Char} (h : a.toLower = b.toLower) : a.toUpper = b.toUpper := by
  have hn : a.toLower.toNat = b.toLower.toNat := by rw [h]
  rw [char_toLower_toNat, char_toLower_toNat] at hn
  apply char_eq_of_toNat_eq
  rw [char_toUpper_toNat, char_toUpper_toNat]
  split_ifs at hn ⊢ <;> omega

theorem char_isAlpha_congr {a b : Char} (h : a.toLower = b.toLower) : a.isAlpha = b.isAlpha := by
  have hn : a.toLower.toNat = b.toLower.toNat := by rw [h]
  rw [char_toLower_toNat, char_toLower_toNat] at hn
  rw [char_isAlpha_toNat, char_isAlpha_toNat]
  simp only [decide_eq_decide]
  split_ifs at hn <;> omega

theorem titleAux_congr {l1 l2 : List Char}
    (h : List.Forall₂ (fun c d => c.toLower = d.toLower) l1 l2) :
    ∀ p, titleAux p l1 = titleAux p l2 := by
  induction h with
  | nil => intro p; rfl
  | cons h1 h2 ih =>
    intro p
    rw [titleAux, titleAux]
    rw [char_isAlpha_congr h1, ih]
    cases p <;> simp [char_toUpper_congr h1, h1]

theorem normName_congr {a b : String}
    (h : List.Forall₂ (fun c d => c.toLower = d.toLower) (pyStrip a).data (pyStrip b).data) :
    normName a = normName b := by
  rw [normName, normName, pyTitle, pyTitle]
  exact congrArg String.mk (titleAux_congr h false)

theorem rowLE_trans3 : ∀ x y z : Row, rowLE x y = true → rowLE y z = true → rowLE x z = true :=
  fun _ _ _ h1 h2 => rowLE_trans h1 h2

theorem rowLE_total2 : ∀ x y : Row, rowLE x y = true ∨ rowLE y x = true :=
  fun x y => rowLE_total x y

theorem checkLE_trans3 : ∀ x y z : CheckRow,
    checkLE x y = true → checkLE y z = true → checkLE x z = true :=
  fun _ _ _ h1 h2 => checkLE_trans h1 h2

theorem checkLE_total2 : ∀ x y : CheckRow, checkLE x y = true ∨ checkLE y x = true :=
  fun x y => checkLE_total x y

theorem aggregate_pairwise (p : Planner) (rs : List Recipe) :
    (aggregate_shopping_list p rs).Pairwise (fun a b => rowLE a b = true) :=
  pairwise_isort rowLE_trans3 rowLE_total2 _

theorem rowLE_iff {a b : Row} :
    rowLE a b = true ↔
      pyStrLt a.ingrediente b.ingrediente = true
      ∨ (a.ingrediente = b.ingrediente ∧ pyStrLe a.unita b.unita = true) := by
  simp [rowLE, pairLE]

theorem checkLE_iff {a b : CheckRow} :
    checkLE a b = true ↔
      (a.comprato = false ∧ b.comprato = true)
      ∨ (a.comprato = b.comprato
          ∧ (pyStrLt a.ingrediente b.ingrediente = true
             ∨ (a.ingrediente = b.ingrediente ∧ pyStrLe a.unita b.unita = true))) := by
  cases ha : a.comprato <;> cases hb : b.comprato <;> simp [checkLE, pairLE, ha, hb]

theorem checkLE_withFlag_false {r s : Row} (h : rowLE r s = true) :
    checkLE (withFlag r false) (withFlag s false) = true := by
  simp only [checkLE, withFlag, Bool.not_false, Bool.and_self, beq_self_eq_true]
  simp only [rowLE] at h
  simp [h]

theorem ensure_fresh_eq (p : Planner) (rs : List Recipe) (cur : Option (List CheckRow))
    (hcur : cur = none ∨ cur = some []) :
    ensure_week_checklist p rs cur
      = (aggregate_shopping_list p rs).map (fun r => withFlag r false) := by
  rw [ensure_week_checklist.eq_def]
  by_cases hdf : aggregate_shopping_list p rs = []
  · rw [if_pos hdf, hdf]
    rfl
  · rw [if_neg hdf]
    have hsorted : ((aggregate_shopping_list p rs).map (fun r => withFlag r false)).Pairwise
        (fun a b => checkLE a b = true) := by
      rw [List.pairwise_map]
      exact (aggregate_pairwise p rs).imp (fun h => checkLE_withFlag_false h)
    rcases hcur with rfl | rfl
    · exact isort_of_pairwise hsorted
    · exact isort_of_pairwise hsorted

theorem ensure_prev_perm (p : Planner) (rs : List Recipe) (cs : List CheckRow)
    (hne : cs ≠ []) :
    (ensure_week_checklist p rs (some cs)).Perm
      ((aggregate_shopping_list p rs).map
        (fun r => withFlag r (prevGet cs r.ingrediente r.unita))) := by
  rw [ensure_week_checklist.eq_def]
  by_cases hdf : aggregate_shopping_list p rs = []
  · rw [if_pos hdf, hdf]
    simp
  · rw [if_neg hdf]
    rcases cs with _ | ⟨c0, cs1⟩
    · exact absurd rfl hne
    · exact isort_perm _ _

/-! ## The claims -/

/-- C4: the unit-to-base conversion maps g→(g,1), kg→(g,1000), ml→(ml,1),
l→(ml,1000), pcs→(pcs,1), tbsp→(tbsp,1), tsp→(tsp,1), and every unit outside
this table is treated as its own base unit with factor 1 without raising an
error, so an unknown unit never merges with a known one (its base unit differs
from the base unit of every table unit). -/
theorem C4_to_base_table :
    to_base "g" = ("g", 1) ∧ to_base "kg" = ("g", 1000) ∧ to_base "ml" = ("ml", 1)
    ∧ to_base "l" = ("ml", 1000) ∧ to_base "pcs" = ("pcs", 1)
    ∧ to_base "tbsp" = ("tbsp", 1) ∧ to_base "tsp" = ("tsp", 1)
    ∧ (∀ u : String, u ∉ (["g", "kg", "ml", "l", "pcs", "tbsp", "tsp"] : List String) →
        to_base u = (u, 1)
        ∧ ∀ k ∈ (["g", "kg", "ml", "l", "pcs", "tbsp", "tsp"] : List String),
            (to_base u).1 ≠ (to_base k).1) := by
  refine ⟨rfl, rfl, rfl, rfl, rfl, rfl, rfl, ?_⟩
  intro u hu
  simp only [List.mem_cons, List.not_mem_nil, or_false, not_or] at hu
  obtain ⟨h1, h2, h3, h4, h5, h6, h7⟩ := hu
  have ht : to_base u = (u, 1) := by
    rw [to_base, if_neg h1, if_neg h2, if_neg h3, if_neg h4, if_neg h5, if_neg h6, if_neg h7]
  refine ⟨ht, ?_⟩
  intro k hk
  fin_cases hk <;> rw [ht] <;> simp [to_base]
  · exact h1
  · exact h1
  · exact h3
  · exact h3
  · exact h5
  · exact h6
  · exact h7

/-- C4 witness: the unknown unit "cup" passes through with factor 1 and its
base unit does not collide with the base unit of the known unit "kg". -/
theorem C4_to_base_table_witness :
    to_base "cup" = ("cup", 1) ∧ (to_base "cup").1 ≠ (to_base "kg").1 := by
  have h := C4_to_base_table.2.2.2.2.2.2.2 "cup" (by decide)
  exact ⟨h.1, h.2 "kg" (by decide)⟩

/-- C5: the display conversion reports (total/1000, "kg") when the base unit
is "g" and the total is ≥ 1000, (total/1000, "l") when the base unit is "ml"
and the total is ≥ 1000, and the base quantity and unit unchanged otherwise,
with rounding to 2 decimal places applied only at this final step; five
250 g contributions of one ingredient name yield the single line item
(quantity 1.25, unit "kg"). -/
theorem C5_display_policy (n bu : String) (q : ℚ) :
    (bu = "g" → q ≥ 1000 → displayRow (n, bu) q = ⟨n, round2 (q / 1000), "kg"⟩)
    ∧ (bu = "ml" → q ≥ 1000 → displayRow (n, bu) q = ⟨n, round2 (q / 1000), "l"⟩)
    ∧ ((bu = "g" ∨ bu = "ml") → q < 1000 → displayRow (n, bu) q = ⟨n, round2 q, bu⟩)
    ∧ (bu ≠ "g" → bu ≠ "ml" → displayRow (n, bu) q = ⟨n, round2 q, bu⟩)
    ∧ aggregate_shopping_list farinaPlanner [farinaRec] = [⟨"Farina", 5 / 4, "kg"⟩] := by
  refine ⟨?_, ?_, ?_, ?_, ?_⟩
  · intro hb hq
    subst hb
    rw [displayRow, if_pos ⟨rfl, hq⟩]
  · intro hb hq
    subst hb
    rw [displayRow]
    rw [if_neg (by simp), if_pos ⟨rfl, hq⟩]
  · intro hb hq
    rcases hb with rfl | rfl
    · rw [displayRow, if_neg (by simp; linarith), if_neg (by simp)]
    · rw [displayRow, if_neg (by simp), if_neg (by simp; linarith)]
  · intro hg hm
    rw [displayRow, if_neg (by simp [hg]), if_neg (by simp [hm])]
  · norm_num +decide [farinaPlanner, farinaRec, aggregate_shopping_list, aggMap, contribs,
      slotContribs, find_recipe, normName, pyStrip, pyTitle, titleAux, pyLower, ingKey, to_base,
      slotScale, dictAdd, displayRow, round2, roundHalfEven, isort, insertLE, rowLE, pairLE,
      pyStrLt, pyStrLe, charsLt]

/-- C5 witness: 1500 ml displays as (round2 1.5, "l"). -/
theorem C5_display_policy_witness :
    displayRow ("Latte", "ml") 1500 = ⟨"Latte", round2 ((1500 : ℚ) / 1000), "l"⟩ :=
  (C5_display_policy "Latte" "ml" 1500).2.1 rfl (by norm_num)

/-- C6: the aggregated output is sorted by name ascending then unit ascending
(Python string order), and rerunning the aggregation on unchanged inputs
yields the identical output. -/
theorem C6_sorted_deterministic (p : Planner) (rs : List Recipe) :
    (aggregate_shopping_list p rs).Pairwise (fun a b =>
      pyStrLt a.ingrediente b.ingrediente = true
      ∨ (a.ingrediente = b.ingrediente ∧ pyStrLe a.unita b.unita = true))
    ∧ aggregate_shopping_list p rs = aggregate_shopping_list p rs :=
  ⟨(aggregate_pairwise p rs).imp (fun h => rowLE_iff.mp h), rfl⟩

/-- C7: aggregation is total on degenerate input: a slot whose recipe id is
not found contributes nothing, a week with no contributions yields the empty
list, line items never carry an empty normalized name, and a line with a
missing quantity contributes a well-defined 0-quantity entry. -/
theorem C7_degenerate_inputs (p : Planner) (rs : List Recipe) (slot : Slot) :
    (find_recipe rs slot.recipe_id = none → slotContribs rs slot = [])
    ∧ (contribs p rs = [] → aggregate_shopping_list p rs = [])
    ∧ (∀ e ∈ slotContribs rs slot, e.1.1 ≠ "")
    ∧ (∀ rec, find_recipe rs slot.recipe_id = some rec →
        ∀ ing ∈ rec.ingredients, ing.qty = none → normName ing.name ≠ "" →
          (ingKey ing.name ing.unit, (0 : ℚ)) ∈ slotContribs rs slot) := by
  refine ⟨?_, ?_, ?_, ?_⟩
  · intro h
    rw [slotContribs, h]
  · intro h
    rw [aggregate_shopping_list, aggMap, h]
    rfl
  · intro e he
    exact (mem_slotContribs_props he).1
  · intro rec hrec ing hing hqty hname
    rw [slotContribs, hrec]
    refine List.mem_filterMap.mpr ⟨ing, hing, ?_⟩
    rw [if_neg hname, hqty]
    simp

/-- C7 witness: a slot referencing the missing id 99 contributes nothing, and
an empty week aggregates to the empty list. -/
theorem C7_degenerate_inputs_witness :
    slotContribs [pastaRec] ⟨some 99, some 2⟩ = []
    ∧ aggregate_shopping_list ⟨[]⟩ [pastaRec] = [] := by
  refine ⟨(C7_degenerate_inputs ⟨[]⟩ [pastaRec] ⟨some 99, some 2⟩).1 (by rfl),
    (C7_degenerate_inputs ⟨[]⟩ [pastaRec] ⟨some 99, some 2⟩).2.1 (by rfl)⟩

/-- C8: the reconciled checklist is ordered with unpurchased items before
purchased ones, secondarily by (name, unit) in Python string order, and the
ordering is reproducible on equal inputs. -/
theorem C8_presentation_ordering (p : Planner) (rs : List Recipe)
    (cur : Option (List CheckRow)) :
    (ensure_week_checklist p rs cur).Pairwise (fun a b =>
      (a.comprato = false ∧ b.comprato = true)
      ∨ (a.comprato = b.comprato
          ∧ (pyStrLt a.ingrediente b.ingrediente = true
             ∨ (a.ingrediente = b.ingrediente ∧ pyStrLe a.unita b.unita = true))))
    ∧ ensure_week_checklist p rs cur = ensure_week_checklist p rs cur := by
  refine ⟨?_, rfl⟩
  rw [ensure_week_checklist.eq_def]
  by_cases hdf : aggregate_shopping_list p rs = []
  · rw [if_pos hdf]
    exact List.Pairwise.nil
  · rw [if_neg hdf]
    exact (pairwise_isort checkLE_trans3 checkLE_total2 _).imp (fun h => checkLE_iff.mp h)

/-- C9: the reconciler keys previous purchased flags on the display unit, so
an ingredient whose total crosses the 1000 g threshold changes key from
("Farina","g") to ("Farina","kg"): the previously ticked flag is not found
and the item comes back unpurchased even though it is still planned. -/
theorem C9_threshold_resets_flag :
    prevGet sogliaPrev "Farina" "g" = true
    ∧ aggregate_shopping_list sogliaPlanner [sogliaRec] = [⟨"Farina", 11 / 10, "kg"⟩]
    ∧ ensure_week_checklist sogliaPlanner [sogliaRec] (some sogliaPrev)
        = [⟨"Farina", 11 / 10, "kg", false⟩] := by
  refine ⟨by decide, ?_, ?_⟩
  · norm_num +decide [sogliaPlanner, sogliaRec, aggregate_shopping_list, aggMap, contribs,
      slotContribs, find_recipe, normName, pyStrip, pyTitle, titleAux, pyLower, ingKey, to_base,
      slotScale, dictAdd, displayRow, round2, roundHalfEven, isort, insertLE, rowLE, pairLE,
      pyStrLt, pyStrLe, charsLt]
  · norm_num +decide [sogliaPlanner, sogliaRec, sogliaPrev, ensure_week_checklist,
      aggregate_shopping_list, aggMap, contribs, slotContribs, find_recipe, normName, pyStrip,
      pyTitle, titleAux, pyLower, ingKey, to_base, slotScale, dictAdd, displayRow, round2,
      roundHalfEven, isort, insertLE, rowLE, pairLE, pyStrLt, pyStrLe, charsLt, prevGet,
      withFlag, checkLE]

/-- C10: the unit string is lowercased before the base-unit lookup, so two
ingredient lines with the same normalized name whose units differ only in
letter case share one aggregation key and merge into a single line item. -/
theorem C10_unit_case_insensitive :
    (∀ n u1 u2 : String, pyLower u1 = pyLower u2 → ingKey n u1 = ingKey n u2)
    ∧ (∀ n u : String, ingKey n u = (normName n, (to_base (pyLower u)).1))
    ∧ aggregate_shopping_list casedPlanner [casedRec] = [⟨"Farina", 300, "g"⟩] := by
  refine ⟨?_, fun n u => rfl, ?_⟩
  · intro n u1 u2 h
    rw [ingKey, ingKey, h]
  · norm_num +decide [casedPlanner, casedRec, aggregate_shopping_list, aggMap, contribs,
      slotContribs, find_recipe, normName, pyStrip, pyTitle, titleAux, pyLower, ingKey, to_base,
      slotScale, dictAdd, displayRow, round2, roundHalfEven, isort, insertLE, rowLE, pairLE,
      pyStrLt, pyStrLe, charsLt]

/-- C10 witness: the keys of "G" and "g" coincide for the same name. -/
theorem C10_unit_case_insensitive_witness :
    ingKey "Farina" "G" = ingKey "Farina" "g" :=
  C10_unit_case_insensitive.1 "Farina" "G" "g" (by decide)

theorem aggMap_key_props {p : Planner} {rs : List Recipe} {k : String × String} {v : ℚ}
    (h : (k, v) ∈ aggMap p rs) : k.2 ≠ "kg" ∧ k.2 ≠ "l" := by
  have hk : k ∈ (aggMap p rs).map Prod.fst := List.mem_map.mpr ⟨(k, v), h, rfl⟩
  rw [mem_keys_aggMap] at hk
  rcases List.mem_map.mp hk with ⟨e, he, heq⟩
  have := mem_contribs_props he
  rw [heq] at this
  exact this.2

/-- C1: the aggregation produces exactly one accumulated entry per distinct
(normalized name, base unit) key contributed by the week's slots; the value
of each entry is the sum of all its scaled contributions; the output rows are
exactly the display images of those entries; names whose stripped characters
agree up to letter case normalize identically (so such variants merge); and
two entries with the same name but different base units yield distinct line
items. -/
theorem C1_one_item_per_key (p : Planner) (rs : List Recipe) :
    ((aggMap p rs).map Prod.fst).Nodup
    ∧ (∀ k, k ∈ (aggMap p rs).map Prod.fst ↔ k ∈ (contribs p rs).map Prod.fst)
    ∧ (∀ k v, (k, v) ∈ aggMap p rs →
        v = (((contribs p rs).filter (fun e => decide (e.1 = k))).map Prod.snd).sum)
    ∧ (aggregate_shopping_list p rs).Perm
        ((aggMap p rs).map (fun kv => displayRow kv.1 kv.2))
    ∧ (∀ a b : String,
        List.Forall₂ (fun c d => c.toLower = d.toLower) (pyStrip a).data (pyStrip b).data →
        normName a = normName b)
    ∧ (∀ k k1 v v1, (k, v) ∈ aggMap p rs → (k1, v1) ∈ aggMap p rs →
        k.1 = k1.1 → k.2 ≠ k1.2 → displayRow k v ≠ displayRow k1 v1) := by
  refine ⟨aggMap_keys_nodup p rs, mem_keys_aggMap p rs, ?_, isort_perm _ _, ?_, ?_⟩
  · intro k v h
    exact aggMap_value h
  · intro a b h
    exact normName_congr h
  · intro k k1 v v1 h h1 hname hne
    exact displayRow_ne_of_ne (aggMap_key_props h) (aggMap_key_props h1) hne

/-- C1 witness: " TOMATO " and "toMato" normalize identically, and the
accumulated pasta entry of the demo week is the sum of its contributions. -/
theorem C1_one_item_per_key_witness :
    normName " TOMATO " = normName "toMato"
    ∧ (400 : ℚ) = (((contribs pastaPlanner [pastaRec]).filter
        (fun e => decide (e.1 = ("Pasta", "g")))).map Prod.snd).sum := by
  have hmem : ((("Pasta", "g"), (400 : ℚ))) ∈ aggMap pastaPlanner [pastaRec] := by
    norm_num +decide [pastaPlanner, pastaRec, aggMap, contribs, slotContribs, find_recipe,
      normName, pyStrip, pyTitle, titleAux, pyLower, ingKey, to_base, slotScale, dictAdd,
      List.filterMap_cons]
  refine ⟨(C1_one_item_per_key pastaPlanner [pastaRec]).2.2.2.2.1 " TOMATO " "toMato" ?_,
    (C1_one_item_per_key pastaPlanner [pastaRec]).2.2.1 ("Pasta", "g") 400 hmem⟩
  show List.Forall₂ _ (pyStrip " TOMATO ").data (pyStrip "toMato").data
  norm_num +decide [pyStrip]

/-- C2: reconciling with an absent or empty previous checklist returns the
fresh list with all purchased flags false; otherwise each fresh item gets the
previous flag of its (name, unit) key, defaulting to false, and every output
item's key comes from the fresh list (stale keys are dropped). -/
theorem C2_reconcile (p : Planner) (rs : List Recipe) (cur : Option (List CheckRow)) :
    ((cur = none ∨ cur = some []) →
      ensure_week_checklist p rs cur
        = (aggregate_shopping_list p rs).map (fun r => withFlag r false))
    ∧ (∀ cs, cur = some cs → cs ≠ [] →
        (ensure_week_checklist p rs cur).Perm
          ((aggregate_shopping_list p rs).map
            (fun r => withFlag r (prevGet cs r.ingrediente r.unita))))
    ∧ (∀ c ∈ ensure_week_checklist p rs cur,
        (c.ingrediente, c.unita) ∈ (aggregate_shopping_list p rs).map
          (fun r => (r.ingrediente, r.unita))) := by
  refine ⟨?_, ?_, ?_⟩
  · intro h
    exact ensure_fresh_eq p rs cur h
  · intro cs hcs hne
    subst hcs
    exact ensure_prev_perm p rs cs hne
  · intro c hc
    have hmem : c ∈ (aggregate_shopping_list p rs).map (fun r => withFlag r false)
        ∨ ∃ cs, c ∈ (aggregate_shopping_list p rs).map
            (fun r => withFlag r (prevGet cs r.ingrediente r.unita)) := by
      rcases cur with _ | cs
      · rw [ensure_fresh_eq p rs none (Or.inl rfl)] at hc
        exact Or.inl hc
      · rcases cs with _ | ⟨c0, cs1⟩
        · rw [ensure_fresh_eq p rs (some []) (Or.inr rfl)] at hc
          exact Or.inl hc
        · exact Or.inr ⟨c0 :: cs1,
            (ensure_prev_perm p rs (c0 :: cs1) (List.cons_ne_nil c0 cs1)).mem_iff.mp hc⟩
    rcases hmem with hm | ⟨cs, hm⟩
    · rcases List.mem_map.mp hm with ⟨r, hr, rfl⟩
      exact List.mem_map.mpr ⟨r, hr, rfl⟩
    · rcases List.mem_map.mp hm with ⟨r, hr, rfl⟩
      exact List.mem_map.mpr ⟨r, hr, rfl⟩

/-- C2 witness: on the demo week, the reconciled list is a permutation of the
fresh rows carrying their looked-up flags, and concretely the tomato stays
purchased, the new basil starts unpurchased, and the stale garlic is gone. -/
theorem C2_reconcile_witness :
    (ensure_week_checklist tomatoPlanner [tomatoRec] (some tomatoPrev)).Perm
      ((aggregate_shopping_list tomatoPlanner [tomatoRec]).map
        (fun r => withFlag r (prevGet tomatoPrev r.ingrediente r.unita)))
    ∧ ensure_week_checklist tomatoPlanner [tomatoRec] (some tomatoPrev)
        = [⟨"Basil", 5, "g", false⟩, ⟨"Tomato", 100, "g", true⟩] := by
  refine ⟨(C2_reconcile tomatoPlanner [tomatoRec] (some tomatoPrev)).2.1 tomatoPrev rfl
      (by rw [tomatoPrev]; exact List.cons_ne_nil _ _), ?_⟩
  norm_num +decide [tomatoPlanner, tomatoRec, tomatoPrev, ensure_week_checklist,
    aggregate_shopping_list, aggMap, contribs, slotContribs, find_recipe, normName, pyStrip,
    pyTitle, titleAux, pyLower, ingKey, to_base, slotScale, dictAdd, displayRow, round2,
    roundHalfEven, isort, insertLE, rowLE, pairLE, pyStrLt, pyStrLe, charsLt, prevGet,
    withFlag, checkLE]

theorem slotContribs_keys_shape (l : List Ingredient) (scale : ℚ) :
    ((l.filterMap (fun ing =>
      if normName ing.name = "" then none
      else
        some (ingKey ing.name ing.unit,
              ing.qty.getD 0 * scale * (to_base (pyLower ing.unit)).2))).map Prod.fst)
      = (l.filter (fun ing => !decide (normName ing.name = ""))).map
          (fun ing => ingKey ing.name ing.unit) := by
  induction l with
  | nil => rfl
  | cons ing rest ih =>
    rw [List.filterMap_cons, List.filter_cons]
    by_cases hn : normName ing.name = ""
    · simp only [hn, if_pos rfl]
      simp [ih]
    · simp only [if_neg hn]
      simp [hn, ih]

/-- C3: every ingredient line of a planned recipe that is found contributes
quantity * (requestedServings / max(1, baseServings)) * unit factor; a recipe
with base servings 0 or missing uses divisor 1; a slot requesting 0 servings
contributes quantity 0 on every line while the lines are still visited (the
set of visited keys does not depend on the servings); and base servings 2
with 200 g requested at 4 servings contributes exactly 400 g. -/
theorem C3_scaling (rs : List Recipe) (slot : Slot) (rec : Recipe)
    (h : find_recipe rs slot.recipe_id = some rec) :
    (∀ ing ∈ rec.ingredients, normName ing.name ≠ "" →
      (ingKey ing.name ing.unit,
        ing.qty.getD 0
          * ((slot.servings.getD 0 : ℚ) / ((max 1 (rec.servings.getD 1) : Int) : ℚ))
          * (to_base (pyLower ing.unit)).2) ∈ slotContribs rs slot)
    ∧ ((rec.servings = none ∨ rec.servings = some 0) →
        ((max 1 (rec.servings.getD 1) : Int) : ℚ) = 1)
    ∧ (slot.servings.getD 0 = 0 → ∀ e ∈ slotContribs rs slot, e.2 = 0)
    ∧ (slotContribs rs slot).map Prod.fst
        = (rec.ingredients.filter (fun ing => !decide (normName ing.name = ""))).map
            (fun ing => ingKey ing.name ing.unit)
    ∧ slotContribs [scaleRec] scaleSlot = [(ingKey "Pasta" "g", 400)] := by
  refine ⟨?_, ?_, ?_, ?_, ?_⟩
  · intro ing hing hname
    rw [slotContribs, h]
    refine List.mem_filterMap.mpr ⟨ing, hing, ?_⟩
    rw [if_neg hname, slotScale]
  · intro hs
    rcases hs with hs | hs <;> rw [hs] <;> rfl
  · intro hserv e he
    rw [slotContribs, h] at he
    rcases List.mem_filterMap.mp he with ⟨ing, hing, hf⟩
    by_cases hn : normName ing.name = ""
    · rw [if_pos hn] at hf
      exact absurd hf (by simp)
    · rw [if_neg hn] at hf
      obtain rfl := Option.some.inj hf
      rw [slotScale, hserv]
      simp
  · rw [slotContribs, h]
    exact slotContribs_keys_shape rec.ingredients (slotScale rec slot)
  · norm_num +decide [scaleRec, scaleSlot, slotContribs, find_recipe, normName, pyStrip,
      pyTitle, titleAux, pyLower, ingKey, to_base, slotScale, List.filterMap_cons]

/-- C3 witness: in the one-recipe catalog, the 200 g pasta line of the slot
requesting 4 servings against 2 base servings contributes its scaled entry. -/
theorem C3_scaling_witness :
    (ingKey "Pasta" "g",
      (some (200 : ℚ)).getD 0
        * ((((⟨some 1, some 4⟩ : Slot).servings.getD 0 : ℚ))
            / ((max 1 ((some (2 : Int)).getD 1) : Int) : ℚ))
        * (to_base (pyLower "g")).2) ∈ slotContribs [scaleRec] scaleSlot := by
  have h : find_recipe [scaleRec] scaleSlot.recipe_id = some scaleRec := rfl
  exact (C3_scaling [scaleRec] scaleSlot scaleRec h).1 ⟨"Pasta", some 200, "g"⟩
    (by rw [scaleRec]; exact List.mem_singleton.mpr rfl) (by decide)
